import Mathlib

/-!
Verification of the `srf311t1` elliptic-curve group-law kernel
(`hardware.py` / `universe.py`): modular inverse, point addition, and
the generator-stepping accumulator described by the specification.

Python integers are embedded as `Int`; Python `%` on a positive modulus
agrees with `Int.emod`.  A point is `none` (the point at infinity
`self.O`) or `some (x, y)`.  Fallible computations (Python exceptions)
are embedded in `Option`: `none` in the outer layer of `point_add`
means the call raised.
-/

/-- The curve parameters held by the `srf311t1` class: prime modulus,
coefficients `a`, `b`, and the generator coordinates. -/
structure srf311t1 where
  p : Int
  a : Int
  b : Int
  Gx : Int
  Gy : Int

/-- The single instance built by `srf311t1.__init__` (all parameters are
hardcoded there; the constructor takes no arguments and cannot fail). -/
def engine : srf311t1 :=
  { p := 3050270732303867035426569855071344150020050131375292223633894756517537249644418382051685297571
  , a := 2848213829144272750026831693559894159255063839034793341841623201175699043858105291865229423962
  , b := 176136253419928193213219452803870329035650170438138981442962457193233866385558455648877395669
  , Gx := 1
  , Gy := 1130968320147379634488488512592319498962733806224039917555310117347222215829218584301583626322 }

/-- A point: `none` is the point at infinity `self.O`, otherwise a pair
of Python integers. -/
abbrev Pt := Option (Int × Int)

/-- The generator `self.G = (self.Gx, self.Gy)`. -/
def srf311t1.G (c : srf311t1) : Pt := some (c.Gx, c.Gy)

/-- Fuel-based extended Euclid on naturals, structurally recursive so the
kernel can evaluate it.  `egcd fuel a b = (x, y)` with
`a*x + b*y = gcd a b` whenever `b ≤ fuel`. -/
def egcd : Nat → Nat → Nat → Int × Int
  | _, _, 0 => (1, 0)
  | 0, _, _ => (1, 0)
  | fuel+1, a, b+1 =>
    let q : Nat := a / (b+1)
    let xy := egcd fuel (b+1) (a % (b+1))
    (xy.2, xy.1 - (q : Int) * xy.2)

/-- Embedding of Python's built-in `pow(a, -1, m)` for `m > 0`: the
inverse of `a` modulo `m`, reduced into `[0, m)`, when `a` is invertible;
`none` embeds the `ValueError` the builtin raises otherwise. -/
def pyInvMod (a m : Int) : Option Int :=
  if Nat.gcd (a % m).toNat m.toNat = 1 then
    some ((egcd m.toNat (a % m).toNat m.toNat).1 % m)
  else none

/-- Embedding of `srf311t1._modinv`: `pow(a, -1, p) if a % p != 0 else 0`. -/
def srf311t1.modinv (c : srf311t1) (a : Int) : Option Int :=
  if a % c.p ≠ 0 then pyInvMod a c.p else some 0

/-- The last three lines of `point_add`: given the slope `lam`, build the
result point `(Rx, Ry)`. -/
def srf311t1.chord (c : srf311t1) (Px Py Qx lam : Int) : Pt :=
  let Rx := (lam * lam - Px - Qx) % c.p
  let Ry := (lam * (Px - Rx) - Py) % c.p
  some (Rx, Ry)

/-- Embedding of `srf311t1.point_add`, line for line.  The outer `Option` layer records
whether the call completed without raising; the inner `Pt` is the
returned point. -/
def srf311t1.point_add (c : srf311t1) (P Q : Pt) : Option Pt :=
  match P with
  | none => some Q
  | some (Px, Py) =>
    match Q with
    | none => some (some (Px, Py))
    | some (Qx, Qy) =>
      if Px % c.p = Qx % c.p ∧ Py % c.p = c.p - Qy % c.p then some none
      else if Px = Qx ∧ Py = Qy then
        if Py = 0 then some none
        else (c.modinv (2 * Py)).map fun iv =>
          c.chord Px Py Qx ((3 * Px * Px + c.a) * iv % c.p)
      else if Px = Qx then some none
      else (c.modinv (Qx - Px)).map fun iv =>
        c.chord Px Py Qx ((Qy - Py) * iv % c.p)

/-- A point in reduced representation (the spec's data model §3):
the identity, or a coordinate pair with both entries in `[0, p)`. -/
def srf311t1.reduced (c : srf311t1) : Pt → Prop
  | none => True
  | some (x, y) => 0 ≤ x ∧ x < c.p ∧ 0 ≤ y ∧ y < c.p

instance (c : srf311t1) : (P : Pt) → Decidable (c.reduced P)
  | none => .isTrue trivial
  | some (_, _) => inferInstanceAs (Decidable (_ ∧ _ ∧ _ ∧ _))

/-- Membership in the curve `y² = x³ + a·x + b` over `Z/p` (the identity
belongs by convention). -/
def srf311t1.onCurve (c : srf311t1) : Pt → Prop
  | none => True
  | some (x, y) => y * y % c.p = (x * x * x + c.a * x + c.b) % c.p

instance (c : srf311t1) : (P : Pt) → Decidable (c.onCurve P)
  | none => .isTrue trivial
  | some (_, _) => inferInstanceAs (Decidable (_ = _))

/-- A valid point: reduced and on the curve. -/
def srf311t1.valid (c : srf311t1) (P : Pt) : Prop := c.reduced P ∧ c.onCurve P

instance (c : srf311t1) (P : Pt) : Decidable (c.valid P) :=
  inferInstanceAs (Decidable (_ ∧ _))

/-- Control-flow mirror of `point_add` recording whether every operand
handed to `_modinv` is nonzero modulo `p`: it is `true` exactly when no
invocation of the modular inverse receives an operand `≡ 0 (mod p)`. -/
def srf311t1.zeroFreeInv (c : srf311t1) (P Q : Pt) : Bool :=
  match P with
  | none => true
  | some (Px, Py) =>
    match Q with
    | none => true
    | some (Qx, Qy) =>
      if Px % c.p = Qx % c.p ∧ Py % c.p = c.p - Qy % c.p then true
      else if Px = Qx ∧ Py = Qy then
        if Py = 0 then true
        else decide (2 * Py % c.p ≠ 0)
      else if Px = Qx then true
      else decide ((Qx - Px) % c.p ≠ 0)

example : engine.point_add none engine.G = some engine.G := by rfl
example : engine.point_add engine.G none = some engine.G := by rfl
example : engine.modinv 0 = some 0 := by decide
example : engine.reduced engine.G ∧ engine.onCurve engine.G := by decide
example : (0:Int) < engine.p ∧ engine.p % 2 = 1 := by decide

/-! ### Arithmetic helper lemmas -/

theorem engine_p_pos : (0:Int) < engine.p := by decide

theorem engine_p_odd : engine.p % 2 = 1 := by decide

/-- A positive integer below an odd modulus stays nonzero after doubling. -/
theorem two_mul_emod_ne_zero {p y : Int} (hodd : p % 2 = 1) (hy0 : 0 < y)
    (hy1 : y < p) : 2 * y % p ≠ 0 := by
  by_cases hlt : 2 * y < p
  · rw [Int.emod_eq_of_lt (by omega) hlt]; omega
  · have h1 : 2 * y % p = (2 * y - p) % p := by
      conv_lhs => rw [show 2 * y = (2 * y - p) + p * 1 by ring]
      rw [Int.add_mul_emod_self_left]
    rw [h1, Int.emod_eq_of_lt (by omega) (by omega)]
    omega

/-- The difference of two distinct reduced residues is nonzero modulo `p`. -/
theorem sub_emod_ne_zero {p x q : Int} (h0x : 0 ≤ x) (h1x : x < p)
    (h0q : 0 ≤ q) (h1q : q < p) (hne : q ≠ x) : (q - x) % p ≠ 0 := by
  by_cases h : x < q
  · rw [Int.emod_eq_of_lt (by omega) (by omega)]; omega
  · have h1 : (q - x) % p = (q - x + p) % p := by
      conv_lhs => rw [show q - x = (q - x + p) + p * (-1) by ring]
      rw [Int.add_mul_emod_self_left]
    rw [h1, Int.emod_eq_of_lt (by omega) (by omega)]; omega

/-- Negation modulo a positive modulus, for operands not divisible by it. -/
theorem neg_emod_eq {p d : Int} (hp : 0 < p) (hd : d % p ≠ 0) :
    (-d) % p = p - d % p := by
  have h1 : 0 ≤ d % p := Int.emod_nonneg d (by omega)
  have h2 : d % p < p := Int.emod_lt_of_pos d hp
  have e1 : (-d) % p = (-(d % p)) % p := by
    conv_lhs => rw [show -d = -(d % p) + p * (-(d / p)) by
      linarith [Int.ediv_add_emod d p]]
    rw [Int.add_mul_emod_self_left]
  rw [e1, show -(d % p) = (p - d % p) + p * (-1) by ring,
    Int.add_mul_emod_self_left, Int.emod_eq_of_lt (by omega) (by omega)]

/-- Two congruent integers in `[0, p)` are equal. -/
theorem eq_of_modEq_of_bounds {p a b : Int} (h : a ≡ b [ZMOD p]) (ha0 : 0 ≤ a)
    (ha1 : a < p) (hb0 : 0 ≤ b) (hb1 : b < p) : a = b := by
  have h2 : a % p = b % p := h
  rwa [Int.emod_eq_of_lt ha0 ha1, Int.emod_eq_of_lt hb0 hb1] at h2

/-! ### C1: behaviour of `_modinv` on operands divisible by `p` -/

/-- C1 (counterexample): contrary to the claim, `_modinv` does not fail
on the operand `0` (which is `≡ 0 (mod p)`): it returns the value `0`. -/
theorem claim_C1_counterexample : ¬ engine.modinv 0 = none := by decide

/-- C1 (amended): for every integer `v` with `v mod p = 0`, `_modinv`
returns the value `0` instead of failing with `DivisionByZero`. -/
theorem claim_C1 (v : Int) (h : v % engine.p = 0) : engine.modinv v = some 0 := by
  simp [srf311t1.modinv, h]

theorem claim_C1_witness : (0:Int) % engine.p = 0 ∧ engine.modinv 0 = some 0 :=
  ⟨by decide, claim_C1 0 (by decide)⟩

/-! ### C5: the point at infinity is a two-sided identity -/

/-- C5: for every valid point `P` (identity, or an on-curve pair reduced
into `[0, p)`), `add(P, identity) = P` and `add(identity, P) = P`. -/
theorem claim_C5 (P : Pt) (hP : engine.valid P) :
    engine.point_add P none = some P ∧ engine.point_add none P = some P := by
  match P with
  | none => exact ⟨rfl, rfl⟩
  | some (x, y) => exact ⟨rfl, rfl⟩

theorem claim_C5_witness :
    engine.valid engine.G ∧
      engine.point_add engine.G none = some engine.G ∧
      engine.point_add none engine.G = some engine.G :=
  ⟨by decide, claim_C5 engine.G (by decide)⟩

/-! ### C8: construction of the curve group -/

/-- C8: `srf311t1.__init__` takes no arguments and hardcodes its
parameters; those parameters satisfy the spec's validity conditions
(`p` a positive integer greater than 3, `Gx, Gy ∈ [0, p)`), so
construction always succeeds, and the failure clause of the claim is
vacuous (no other parameters can ever be supplied). -/
theorem claim_C8 :
    3 < engine.p ∧ 0 ≤ engine.Gx ∧ engine.Gx < engine.p ∧
      0 ≤ engine.Gy ∧ engine.Gy < engine.p := by decide

/-! ### C6: inverse law -/

/-- C6: for every valid non-identity point `(x, y)` with reduced
coordinates, `add((x, y), (x, (-y) mod p))` is the point at infinity. -/
theorem claim_C6 (x y : Int) (hP : engine.valid (some (x, y))) :
    engine.point_add (some (x, y)) (some (x, (-y) % engine.p)) = some none := by
  obtain ⟨⟨hx0, hx1, hy0, hy1⟩, -⟩ := hP
  have hp := engine_p_pos
  by_cases hy : y = 0
  · subst hy
    have h1 : (-(0:Int)) % engine.p = 0 := by norm_num
    rw [h1, srf311t1.point_add]
    rw [if_neg (by
      rintro ⟨-, hcon⟩
      rw [Int.zero_emod] at hcon
      omega), if_pos ⟨rfl, rfl⟩, if_pos rfl]
  · have hyy : y % engine.p = y := Int.emod_eq_of_lt hy0 hy1
    have hq : (-y) % engine.p = engine.p - y := by
      rw [neg_emod_eq hp (by rw [hyy]; omega), hyy]
    rw [hq, srf311t1.point_add]
    rw [if_pos ⟨rfl, by rw [hyy, Int.emod_eq_of_lt (by omega) (by omega)]; omega⟩]

theorem claim_C6_witness :
    engine.valid (some (engine.Gx, engine.Gy)) ∧
      engine.point_add (some (engine.Gx, engine.Gy))
        (some (engine.Gx, (-engine.Gy) % engine.p)) = some none :=
  ⟨by decide, claim_C6 engine.Gx engine.Gy (by decide)⟩

/-! ### C9: the group law preserves reduced coordinates -/

theorem chord_reduced (c : srf311t1) (hp : 0 < c.p) (Px Py Qx lam : Int) :
    c.reduced (c.chord Px Py Qx lam) := by
  simp only [srf311t1.chord, srf311t1.reduced]
  exact ⟨Int.emod_nonneg _ (by omega), Int.emod_lt_of_pos _ hp,
    Int.emod_nonneg _ (by omega), Int.emod_lt_of_pos _ hp⟩

/-- C9: when both arguments have coordinates reduced into `[0, p)` and
`point_add` returns, the returned point is the identity or again a pair
with both coordinates in `[0, p)`. -/
theorem claim_C9 (P Q R : Pt) (hP : engine.reduced P) (hQ : engine.reduced Q)
    (h : engine.point_add P Q = some R) : engine.reduced R := by
  have hp := engine_p_pos
  match P, Q with
  | none, Q =>
    injection h with h
    subst h; exact hQ
  | some (Px, Py), none =>
    injection h with h
    subst h; exact hP
  | some (Px, Py), some (Qx, Qy) =>
    simp only [srf311t1.point_add] at h
    split_ifs at h with h1 h2 h3 h4
    · injection h with h; subst h; trivial
    · injection h with h; subst h; trivial
    · rw [Option.map_eq_some'] at h
      obtain ⟨iv, -, hf⟩ := h
      rw [← hf]
      exact chord_reduced engine hp _ _ _ _
    · injection h with h; subst h; trivial
    · rw [Option.map_eq_some'] at h
      obtain ⟨iv, -, hf⟩ := h
      rw [← hf]
      exact chord_reduced engine hp _ _ _ _

set_option maxRecDepth 100000 in
theorem claim_C9_witness :
    engine.point_add engine.G engine.G =
      some (some (849712056166280384658109301620276820272255764368600755408510291279694123086055691037251444668,
        777492347245926021930621108541231958643145196078160772471375033711578998766210232285910752928)) ∧
    engine.reduced
      (some (849712056166280384658109301620276820272255764368600755408510291279694123086055691037251444668,
        777492347245926021930621108541231958643145196078160772471375033711578998766210232285910752928)) :=
  ⟨by decide, claim_C9 engine.G engine.G _ (by decide) (by decide) (by decide)⟩

/-! ### C2: the stepping accumulator (modelled from the spec) -/

/-- Modelled from the spec: `step()` (§4.1) is absent from `src/`; per the
spec it sets `accumulator := add(accumulator, G)`, increments the scalar
counter `k` by 1, and returns the pair `(k, accumulator.x)`.  The state is
`(k, accumulator)`; the accumulator starts at `G` with `k = 0`. -/
def srf311t1.stepOnce (c : srf311t1) (s : Nat × Pt) : (Nat × Pt) × (Nat × Option Int) :=
  ((s.1 + 1, (c.point_add s.2 c.G).getD none),
    (s.1 + 1, ((c.point_add s.2 c.G).getD none).map Prod.fst))

/-- The state after `k` consecutive `step()` calls from the initial state. -/
def srf311t1.runSteps (c : srf311t1) : Nat → Nat × Pt
  | 0 => (0, c.G)
  | k+1 => (c.stepOnce (c.runSteps k)).1

/-- Modelled from the spec (glossary): scalar multiplication `n·G` is
repeated addition of the generator, `n` times: `0·G` is the identity and
`(n+1)·G = n·G + G` under the group law. -/
def srf311t1.smulG (c : srf311t1) : Nat → Pt
  | 0 => none
  | n+1 => (c.point_add (c.smulG n) c.G).getD none

/-- C2: after `k` calls to `step()` starting from accumulator `= G`, the
counter is `k` and the accumulator is the scalar multiple `(k+1)·G` under
the group law; the next call returns the pair (counter, accumulator.x). -/
theorem claim_C2 : ∀ k : Nat,
    (engine.runSteps k).1 = k ∧
    (engine.runSteps k).2 = engine.smulG (k + 1) ∧
    (engine.stepOnce (engine.runSteps k)).2 =
      (k + 1, (engine.smulG (k + 2)).map Prod.fst) := by
  intro k
  induction k with
  | zero => exact ⟨rfl, rfl, rfl⟩
  | succ n ih =>
    obtain ⟨ih1, ih2, -⟩ := ih
    have h1 : (engine.runSteps (n + 1)).1 = n + 1 := by
      show (engine.stepOnce (engine.runSteps n)).1.1 = n + 1
      rw [srf311t1.stepOnce, ih1]
    have h2 : (engine.runSteps (n + 1)).2 = engine.smulG (n + 2) := by
      show (engine.stepOnce (engine.runSteps n)).1.2 = engine.smulG (n + 2)
      rw [srf311t1.stepOnce, ih2]
      rfl
    refine ⟨h1, h2, ?_⟩
    rw [srf311t1.stepOnce, h1, h2]
    rfl

/-! ### Correctness of the extended Euclid / modular inverse -/

theorem egcd_bezout : ∀ fuel (a b : Nat), b ≤ fuel →
    (a : Int) * (egcd fuel a b).1 + (b : Int) * (egcd fuel a b).2 =
      (Nat.gcd a b : Int) := by
  intro fuel
  induction fuel with
  | zero =>
    intro a b hb
    interval_cases b
    simp [egcd]
  | succ n ih =>
    intro a b hb
    match b with
    | 0 => simp [egcd]
    | b' + 1 =>
      have hrec := ih (b' + 1) (a % (b' + 1))
        (by have := Nat.mod_lt a (y := b' + 1) (by omega); omega)
      have hgcd : Nat.gcd a (b' + 1) = Nat.gcd (b' + 1) (a % (b' + 1)) := by
        rw [Nat.gcd_comm a (b' + 1), Nat.gcd_rec (b' + 1) a]
        exact Nat.gcd_comm _ _
      have hdm : ((b' + 1 : Nat) : Int) * ((a / (b' + 1) : Nat) : Int) +
          ((a % (b' + 1) : Nat) : Int) = (a : Int) := by
        exact_mod_cast congrArg (Nat.cast (R := Int)) (Nat.div_add_mod a (b' + 1))
      show (a : Int) * (egcd n (b' + 1) (a % (b' + 1))).2 +
        ((b' + 1 : Nat) : Int) * ((egcd n (b' + 1) (a % (b' + 1))).1 -
          ((a / (b' + 1) : Nat) : Int) * (egcd n (b' + 1) (a % (b' + 1))).2) =
        (Nat.gcd a (b' + 1) : Int)
      rw [hgcd, ← hrec]
      linear_combination (-(egcd n (b' + 1) (a % (b' + 1))).2) * hdm

/-- When `pyInvMod` succeeds it returns a value in `[0, m)` that is a
modular inverse of its argument. -/
theorem pyInvMod_some {a m u : Int} (hm : 0 < m)
    (h : pyInvMod a m = some u) : 0 ≤ u ∧ u < m ∧ a * u ≡ 1 [ZMOD m] := by
  unfold pyInvMod at h
  split_ifs at h with hg
  · injection h with h
    subst h
    refine ⟨Int.emod_nonneg _ (by omega), Int.emod_lt_of_pos _ hm, ?_⟩
    have hbez := egcd_bezout m.toNat (a % m).toNat m.toNat le_rfl
    rw [hg] at hbez
    have hr : (((a % m).toNat : Nat) : Int) = a % m :=
      Int.toNat_of_nonneg (Int.emod_nonneg _ (by omega))
    have hmn : ((m.toNat : Nat) : Int) = m := Int.toNat_of_nonneg (by omega)
    rw [hr, hmn] at hbez
    push_cast at hbez
    -- hbez : (a % m) * x + m * y = 1
    have h1 : a * ((egcd m.toNat (a % m).toNat m.toNat).1 % m) ≡
        (a % m) * (egcd m.toNat (a % m).toNat m.toNat).1 [ZMOD m] := by
      exact (Int.ModEq.symm (Int.emod_emod_of_dvd a dvd_rfl)).mul
        (Int.emod_emod_of_dvd _ dvd_rfl)
    calc a * ((egcd m.toNat (a % m).toNat m.toNat).1 % m)
        ≡ (a % m) * (egcd m.toNat (a % m).toNat m.toNat).1 [ZMOD m] := h1
      _ ≡ 1 [ZMOD m] := by
          rw [Int.modEq_iff_dvd]
          exact ⟨(egcd m.toNat (a % m).toNat m.toNat).2, by linarith⟩

/-- The identity `gcd (n - r) n = gcd r n` for `0 < r < n`. -/
theorem gcd_sub_left_self {n r : Nat} (h1 : r < n) :
    Nat.gcd (n - r) n = Nat.gcd r n := by
  have e1 : r + (n - r) = n := by omega
  calc Nat.gcd (n - r) n = Nat.gcd (n - r) (r + (n - r)) := by rw [e1]
    _ = Nat.gcd (n - r) r := Nat.gcd_add_self_right _ _
    _ = Nat.gcd r (n - r) := Nat.gcd_comm _ _
    _ = Nat.gcd r ((n - r) + r) := (Nat.gcd_add_self_right _ _).symm
    _ = Nat.gcd r n := by rw [Nat.add_comm] at e1; rw [e1]

/-! ### C3: no zero operand ever reaches the modular inverse -/

/-- C3: for well-formed (reduced) points, every operand that `point_add`
hands to `_modinv` is nonzero modulo `p`: the identity, negation and
`y = 0` pre-checks intercept every zero-divisor case. -/
theorem claim_C3 (P Q : Pt) (hP : engine.reduced P) (hQ : engine.reduced Q) :
    engine.zeroFreeInv P Q = true := by
  match P, Q with
  | none, _ => rfl
  | some (Px, Py), none => rfl
  | some (Px, Py), some (Qx, Qy) =>
    obtain ⟨hx0, hx1, hy0, hy1⟩ := hP
    obtain ⟨hqx0, hqx1, hqy0, hqy1⟩ := hQ
    simp only [srf311t1.zeroFreeInv]
    split_ifs with h1 h2 h3 h4
    · rfl
    · rfl
    · rw [decide_eq_true_eq]
      exact two_mul_emod_ne_zero engine_p_odd (by omega) hy1
    · rfl
    · rw [decide_eq_true_eq]
      exact sub_emod_ne_zero hx0 hx1 hqx0 hqx1 (fun hc => h4 hc.symm)

theorem claim_C3_witness :
    engine.reduced engine.G ∧ engine.zeroFreeInv engine.G engine.G = true :=
  ⟨by decide, claim_C3 engine.G engine.G (by decide) (by decide)⟩

/-! ### C7: commutativity of `point_add` -/

/-- The chord formula gives the same point when the roles of `P` and `Q`
are exchanged, provided `lam` is congruent to the slope. -/
theorem chord_swap {Px Py Qx Qy iv lam : Int}
    (hinv : (Qx - Px) * iv ≡ 1 [ZMOD engine.p])
    (hlam : lam ≡ (Qy - Py) * iv [ZMOD engine.p]) :
    engine.chord Px Py Qx lam = engine.chord Qx Qy Px lam := by
  have key : lam * (Px - Qx) ≡ Py - Qy [ZMOD engine.p] := by
    calc lam * (Px - Qx)
        ≡ ((Qy - Py) * iv) * (Px - Qx) [ZMOD engine.p] := hlam.mul_right _
      _ = (-(Qy - Py)) * ((Qx - Px) * iv) := by ring
      _ ≡ (-(Qy - Py)) * 1 [ZMOD engine.p] := (Int.ModEq.refl _).mul hinv
      _ = Py - Qy := by ring
  have hrx : (lam * lam - Px - Qx) % engine.p = (lam * lam - Qx - Px) % engine.p := by
    ring_nf
  simp only [srf311t1.chord, ← hrx, Option.some.injEq, Prod.mk.injEq]
  refine ⟨by trivial, ?_⟩
  show lam * (Px - (lam * lam - Px - Qx) % engine.p) - Py ≡
    lam * (Qx - (lam * lam - Px - Qx) % engine.p) - Qy [ZMOD engine.p]
  have expand : lam * (Px - (lam * lam - Px - Qx) % engine.p) - Py =
      (lam * (Qx - (lam * lam - Px - Qx) % engine.p) - Qy) +
        (lam * (Px - Qx) - (Py - Qy)) := by ring
  rw [expand]
  have hz : lam * (Px - Qx) - (Py - Qy) ≡ 0 [ZMOD engine.p] := by
    have := key.sub_right (Py - Qy)
    simpa using this
  calc (lam * (Qx - (lam * lam - Px - Qx) % engine.p) - Qy) +
        (lam * (Px - Qx) - (Py - Qy))
      ≡ (lam * (Qx - (lam * lam - Px - Qx) % engine.p) - Qy) + 0 [ZMOD engine.p] :=
        (Int.ModEq.refl _).add hz
    _ = lam * (Qx - (lam * lam - Px - Qx) % engine.p) - Qy := by ring

/-- C7: for every pair of reduced points, `add(P, Q) = add(Q, P)`. -/
theorem claim_C7 (P Q : Pt) (hP : engine.reduced P) (hQ : engine.reduced Q) :
    engine.point_add P Q = engine.point_add Q P := by
  have hp := engine_p_pos
  match P, Q with
  | none, none => rfl
  | none, some (Qx, Qy) => rfl
  | some (Px, Py), none => rfl
  | some (Px, Py), some (Qx, Qy) =>
    obtain ⟨hx0, hx1, hy0, hy1⟩ := hP
    obtain ⟨hqx0, hqx1, hqy0, hqy1⟩ := hQ
    have hPx : Px % engine.p = Px := Int.emod_eq_of_lt hx0 hx1
    have hPy : Py % engine.p = Py := Int.emod_eq_of_lt hy0 hy1
    have hQx : Qx % engine.p = Qx := Int.emod_eq_of_lt hqx0 hqx1
    have hQy : Qy % engine.p = Qy := Int.emod_eq_of_lt hqy0 hqy1
    rw [srf311t1.point_add, srf311t1.point_add, hPx, hPy, hQx, hQy]
    by_cases hneg : Px = Qx ∧ Py = engine.p - Qy
    · have hneg' : Qx = Px ∧ Qy = engine.p - Py := ⟨hneg.1.symm, by omega⟩
      rw [if_pos hneg, if_pos hneg']
    · have hneg' : ¬(Qx = Px ∧ Qy = engine.p - Py) :=
        fun hc => hneg ⟨hc.1.symm, by omega⟩
      rw [if_neg hneg, if_neg hneg']
      by_cases heq : Px = Qx ∧ Py = Qy
      · obtain ⟨he1, he2⟩ := heq
        subst he1; subst he2
        rfl
      · have heq' : ¬(Qx = Px ∧ Qy = Py) := fun hc => heq ⟨hc.1.symm, hc.2.symm⟩
        rw [if_neg heq, if_neg heq']
        by_cases hxx : Px = Qx
        · rw [if_pos hxx, if_pos hxx.symm]
        · have hxx' : ¬(Qx = Px) := fun hc => hxx hc.symm
          rw [if_neg hxx, if_neg hxx']
          have hd1 : (Qx - Px) % engine.p ≠ 0 :=
            sub_emod_ne_zero hx0 hx1 hqx0 hqx1 (fun hc => hxx hc.symm)
          have hd2 : (Px - Qx) % engine.p ≠ 0 :=
            sub_emod_ne_zero hqx0 hqx1 hx0 hx1 hxx
          rw [srf311t1.modinv, srf311t1.modinv, if_pos hd1, if_pos hd2]
          have hm1 : 0 ≤ (Qx - Px) % engine.p := Int.emod_nonneg _ (by omega)
          have hm2 : (Qx - Px) % engine.p < engine.p := Int.emod_lt_of_pos _ hp
          have hpn : ((Px - Qx) % engine.p).toNat =
              engine.p.toNat - ((Qx - Px) % engine.p).toNat := by
            rw [show Px - Qx = -(Qx - Px) by ring, neg_emod_eq hp hd1]
            omega
          have hgeq : Nat.gcd ((Px - Qx) % engine.p).toNat engine.p.toNat =
              Nat.gcd ((Qx - Px) % engine.p).toNat engine.p.toNat := by
            rw [hpn]
            exact gcd_sub_left_self (by omega)
          by_cases hg : Nat.gcd ((Qx - Px) % engine.p).toNat engine.p.toNat = 1
          · have e1 : pyInvMod (Qx - Px) engine.p =
                some ((egcd engine.p.toNat ((Qx - Px) % engine.p).toNat
                  engine.p.toNat).1 % engine.p) := by
              rw [pyInvMod, if_pos hg]
            have e2 : pyInvMod (Px - Qx) engine.p =
                some ((egcd engine.p.toNat ((Px - Qx) % engine.p).toNat
                  engine.p.toNat).1 % engine.p) := by
              rw [pyInvMod, if_pos (hgeq.trans hg)]
            obtain ⟨-, -, hinv1⟩ := pyInvMod_some hp e1
            obtain ⟨-, -, hinv2⟩ := pyInvMod_some hp e2
            rw [e1, e2, Option.map_some', Option.map_some']
            set iv1 : Int := (egcd engine.p.toNat ((Qx - Px) % engine.p).toNat
              engine.p.toNat).1 % engine.p with hiv1
            set iv2 : Int := (egcd engine.p.toNat ((Px - Qx) % engine.p).toNat
              engine.p.toNat).1 % engine.p with hiv2
            have h1 := hinv1.mul_right iv2
            have h2 := hinv2.mul_right iv1
            have hsum : (0:Int) ≡ iv1 + iv2 [ZMOD engine.p] := by
              calc (0:Int) = (Qx - Px) * iv1 * iv2 + ((Px - Qx) * iv2 * iv1 - 1 * iv2 - 1 * iv1) + iv1 + iv2 := by ring
                _ ≡ 1 * iv2 + ((Px - Qx) * iv2 * iv1 - 1 * iv2 - 1 * iv1) + iv1 + iv2 [ZMOD engine.p] := by
                    exact (((h1.add_right _).add_right _).add_right _)
                _ = (Px - Qx) * iv2 * iv1 + iv2 := by ring
                _ ≡ 1 * iv1 + iv2 [ZMOD engine.p] := h2.add_right _
                _ = iv1 + iv2 := by ring
            have hlam2 : (Qy - Py) * iv1 ≡ (Py - Qy) * iv2 [ZMOD engine.p] := by
              calc (Qy - Py) * iv1
                  = (Qy - Py) * (iv1 + iv2) + (Py - Qy) * iv2 := by ring
                _ ≡ (Qy - Py) * 0 + (Py - Qy) * iv2 [ZMOD engine.p] :=
                    (hsum.symm.mul_left _).add_right _
                _ = (Py - Qy) * iv2 := by ring
            have hlameq : (Qy - Py) * iv1 % engine.p = (Py - Qy) * iv2 % engine.p := hlam2
            rw [← hlameq]
            congr 1
            exact chord_swap hinv1 (Int.emod_emod_of_dvd _ dvd_rfl)
          · rw [pyInvMod, pyInvMod, if_neg hg, if_neg (fun hc => hg (hgeq.symm.trans hc))]
            rfl

theorem claim_C7_witness :
    engine.reduced engine.G ∧
      engine.point_add engine.G
          (some (849712056166280384658109301620276820272255764368600755408510291279694123086055691037251444668,
            777492347245926021930621108541231958643145196078160772471375033711578998766210232285910752928)) =
        engine.point_add
          (some (849712056166280384658109301620276820272255764368600755408510291279694123086055691037251444668,
            777492347245926021930621108541231958643145196078160772471375033711578998766210232285910752928))
          engine.G :=
  ⟨by decide, claim_C7 engine.G _ (by decide) (by decide)⟩

/-! ### Primality of the modulus

`p` is certified prime through Lucas certificates checked by a
kernel-evaluable modular exponentiation. -/

def powMod : Nat → Nat → Nat → Nat → Nat
  | 0, _, _, m => 1 % m
  | fuel+1, a, e, m =>
    if e = 0 then 1 % m
    else
      if e % 2 = 1 then powMod fuel (a * a % m) (e / 2) m * a % m
      else powMod fuel (a * a % m) (e / 2) m

theorem powMod_eq (m : Nat) : ∀ fuel e a, e < 2 ^ fuel →
    powMod fuel a e m = a ^ e % m := by
  intro fuel
  induction fuel with
  | zero =>
    intro e a he
    interval_cases e
    simp [powMod]
  | succ n ih =>
    intro e a he
    rw [powMod]
    by_cases h0 : e = 0
    · simp [h0]
    · rw [if_neg h0]
      have he2 : e / 2 < 2 ^ n := by
        have h2 : (0:Nat) < 2 := by norm_num
        rw [Nat.div_lt_iff_lt_mul h2]
        calc e < 2 ^ (n + 1) := he
          _ = 2 ^ n * 2 := by rw [Nat.pow_succ]
      rw [ih (e / 2) (a * a % m) he2]
      have hsq : (a * a % m) ^ (e / 2) % m = (a * a) ^ (e / 2) % m :=
        (Nat.pow_mod (a * a) (e / 2) m).symm
      by_cases hodd : e % 2 = 1
      · rw [if_pos hodd, hsq, Nat.mod_mul_mod]
        have he' : e = 2 * (e / 2) + 1 := by omega
        conv_rhs => rw [he', pow_succ, pow_mul, pow_two]
      · rw [if_neg hodd, hsq]
        have he' : e = 2 * (e / 2) := by omega
        conv_rhs => rw [he', pow_mul, pow_two]

/-- A `powMod` computation certifies a power identity in `ZMod`. -/
theorem zmod_pow_eq_one {N a fuel e : Nat} (he : e < 2 ^ fuel)
    (h : powMod fuel a e N = 1) : ((a : ZMod N)) ^ e = 1 := by
  rw [powMod_eq N fuel e a he] at h
  have h2 : (((a ^ e % N : Nat)) : ZMod N) = ((1 : Nat) : ZMod N) := by rw [h]
  rwa [ZMod.natCast_mod, Nat.cast_pow, Nat.cast_one] at h2

theorem zmod_pow_ne_one {N a fuel e : Nat} (hN : 1 < N) (he : e < 2 ^ fuel)
    (h : powMod fuel a e N ≠ 1) : ((a : ZMod N)) ^ e ≠ 1 := by
  intro hcon
  apply h
  rw [powMod_eq N fuel e a he]
  haveI : NeZero N := ⟨by omega⟩
  have h1 : (((a ^ e % N : Nat)) : ZMod N) = 1 := by
    rw [ZMod.natCast_mod, Nat.cast_pow, hcon]
  have h2 : ((a ^ e % N : Nat)) < N := Nat.mod_lt _ (by omega)
  have h3 := ZMod.val_cast_of_lt h2
  rw [h1] at h3
  rw [← h3]
  haveI : Fact (1 < N) := ⟨hN⟩
  rw [ZMod.val_one]

/-- Lucas certificate: `N` is prime when some `a` has order `N - 1`
modulo `N`, checked through `powMod` runs against a covering list of the
prime divisors of `N - 1`. -/
theorem lucas_cert (N a fuel : Nat) (qs : List Nat) (hN : 1 < N)
    (hfuel : N - 1 < 2 ^ fuel)
    (hcover : ∀ q : Nat, q.Prime → q ∣ N - 1 → q ∈ qs)
    (ha : powMod fuel a (N - 1) N = 1)
    (hd : ∀ q ∈ qs, powMod fuel a ((N - 1) / q) N ≠ 1) : N.Prime := by
  apply lucas_primality N (a : ZMod N) (zmod_pow_eq_one hfuel ha)
  intro q hq hqdvd
  exact zmod_pow_ne_one hN (by
    have h1 : (N - 1) / q ≤ N - 1 := Nat.div_le_self _ _
    omega) (hd q (hcover q hq hqdvd))

/-! ### Consequences of the primality of `p` -/

theorem gcd_guard_of_prime (hp : Nat.Prime engine.p.toNat) {w : Int}
    (hw : w % engine.p ≠ 0) :
    Nat.gcd (w % engine.p).toNat engine.p.toNat = 1 := by
  have hpos := engine_p_pos
  have h0 : 0 ≤ w % engine.p := Int.emod_nonneg w (by omega)
  have h1 : w % engine.p < engine.p := Int.emod_lt_of_pos w hpos
  have hr0 : 0 < (w % engine.p).toNat := by omega
  have hr1 : (w % engine.p).toNat < engine.p.toNat := by omega
  have hnd : ¬ engine.p.toNat ∣ (w % engine.p).toNat :=
    fun hd => by have := Nat.le_of_dvd hr0 hd; omega
  have hco := (Nat.Prime.coprime_iff_not_dvd hp).mpr hnd
  rw [Nat.gcd_comm]
  exact hco

theorem modinv_isSome_of_prime (hp : Nat.Prime engine.p.toNat) (w : Int) :
    (engine.modinv w).isSome = true := by
  rw [srf311t1.modinv]
  split_ifs with h
  · rw [pyInvMod, if_pos (gcd_guard_of_prime hp h)]
    rfl
  · rfl

theorem point_add_isSome_of_prime (hp : Nat.Prime engine.p.toNat) (P Q : Pt) :
    (engine.point_add P Q).isSome = true := by
  match P, Q with
  | none, _ => rfl
  | some (Px, Py), none => rfl
  | some (Px, Py), some (Qx, Qy) =>
    rw [srf311t1.point_add]
    split_ifs
    · rfl
    · rfl
    · rw [Option.isSome_map']
      exact modinv_isSome_of_prime hp _
    · rfl
    · rw [Option.isSome_map']
      exact modinv_isSome_of_prime hp _

theorem modinv_inverse_of_prime (hp : Nat.Prime engine.p.toNat) (v : Int)
    (hv : v % engine.p ≠ 0) :
    ∃ u, engine.modinv v = some u ∧ 0 ≤ u ∧ u < engine.p ∧
      u * v ≡ 1 [ZMOD engine.p] ∧
      ∀ w, 0 ≤ w → w < engine.p → w * v ≡ 1 [ZMOD engine.p] → w = u := by
  have hg := gcd_guard_of_prime hp hv
  have he : engine.modinv v = pyInvMod v engine.p := by
    rw [srf311t1.modinv, if_pos hv]
  have he2 : pyInvMod v engine.p =
      some ((egcd engine.p.toNat (v % engine.p).toNat engine.p.toNat).1 % engine.p) := by
    rw [pyInvMod, if_pos hg]
  obtain ⟨h0, h1, hmod⟩ := pyInvMod_some engine_p_pos he2
  set u : Int :=
    (egcd engine.p.toNat (v % engine.p).toNat engine.p.toNat).1 % engine.p with hu
  have hmod2 : u * v ≡ 1 [ZMOD engine.p] := by rwa [mul_comm] at hmod
  refine ⟨u, he.trans he2, h0, h1, hmod2, ?_⟩
  intro w hw0 hw1 hwv
  have hcong : w ≡ u [ZMOD engine.p] := by
    calc w = w * 1 := by ring
      _ ≡ w * (v * u) [ZMOD engine.p] := (hmod.mul_left w).symm
      _ = (w * v) * u := by ring
      _ ≡ 1 * u [ZMOD engine.p] := hwv.mul_right u
      _ = u := by ring
  exact eq_of_modEq_of_bounds hcong hw0 hw1 h0 h1
set_option maxRecDepth 400000 in
theorem pr3210517 : Nat.Prime 3210517 := by
  apply lucas_cert 3210517 6 23 [2, 3, 367] (by norm_num) (by norm_num)
  · intro q hq hdvd
    have he : (3210517 : Nat) - 1 = 2 ^ 2 * 3 ^ 7 * 367 := by norm_num
    rw [he] at hdvd
    rcases (Nat.Prime.dvd_mul hq).mp hdvd with hdvd | hdvd
    · rcases (Nat.Prime.dvd_mul hq).mp hdvd with hdvd | hdvd
      · have hq2 := Nat.Prime.dvd_of_dvd_pow hq hdvd
        have he2 : q = 2 := (Nat.prime_dvd_prime_iff_eq hq (by norm_num)).mp hq2
        simp [he2]
      · have hq2 := Nat.Prime.dvd_of_dvd_pow hq hdvd
        have he2 : q = 3 := (Nat.prime_dvd_prime_iff_eq hq (by norm_num)).mp hq2
        simp [he2]
    · have he2 : q = 367 := (Nat.prime_dvd_prime_iff_eq hq (by norm_num)).mp hdvd
      simp [he2]
  · decide
  · intro q hqmem
    fin_cases hqmem <;> decide

set_option maxRecDepth 400000 in
theorem pr340314803 : Nat.Prime 340314803 := by
  apply lucas_cert 340314803 2 30 [2, 53, 3210517] (by norm_num) (by norm_num)
  · intro q hq hdvd
    have he : (340314803 : Nat) - 1 = 2 * 53 * 3210517 := by norm_num
    rw [he] at hdvd
    rcases (Nat.Prime.dvd_mul hq).mp hdvd with hdvd | hdvd
    · rcases (Nat.Prime.dvd_mul hq).mp hdvd with hdvd | hdvd
      · have he2 : q = 2 := (Nat.prime_dvd_prime_iff_eq hq (by norm_num)).mp hdvd
        simp [he2]
      · have he2 : q = 53 := (Nat.prime_dvd_prime_iff_eq hq (by norm_num)).mp hdvd
        simp [he2]
    · have he2 : q = 3210517 := (Nat.prime_dvd_prime_iff_eq hq pr3210517).mp hdvd
      simp [he2]
  · decide
  · intro q hqmem
    fin_cases hqmem <;> decide

set_option maxRecDepth 400000 in
theorem pr1761542641 : Nat.Prime 1761542641 := by
  apply lucas_cert 1761542641 14 32 [2, 3, 5, 11, 13, 1901] (by norm_num) (by norm_num)
  · intro q hq hdvd
    have he : (1761542641 : Nat) - 1 = 2 ^ 4 * 3 ^ 4 * 5 * 11 * 13 * 1901 := by norm_num
    rw [he] at hdvd
    rcases (Nat.Prime.dvd_mul hq).mp hdvd with hdvd | hdvd
    · rcases (Nat.Prime.dvd_mul hq).mp hdvd with hdvd | hdvd
      · rcases (Nat.Prime.dvd_mul hq).mp hdvd with hdvd | hdvd
        · rcases (Nat.Prime.dvd_mul hq).mp hdvd with hdvd | hdvd
          · rcases (Nat.Prime.dvd_mul hq).mp hdvd with hdvd | hdvd
            · have hq2 := Nat.Prime.dvd_of_dvd_pow hq hdvd
              have he2 : q = 2 := (Nat.prime_dvd_prime_iff_eq hq (by norm_num)).mp hq2
              simp [he2]
            · have hq2 := Nat.Prime.dvd_of_dvd_pow hq hdvd
              have he2 : q = 3 := (Nat.prime_dvd_prime_iff_eq hq (by norm_num)).mp hq2
              simp [he2]
          · have he2 : q = 5 := (Nat.prime_dvd_prime_iff_eq hq (by norm_num)).mp hdvd
            simp [he2]
        · have he2 : q = 11 := (Nat.prime_dvd_prime_iff_eq hq (by norm_num)).mp hdvd
          simp [he2]
      · have he2 : q = 13 := (Nat.prime_dvd_prime_iff_eq hq (by norm_num)).mp hdvd
        simp [he2]
    · have he2 : q = 1901 := (Nat.prime_dvd_prime_iff_eq hq (by norm_num)).mp hdvd
      simp [he2]
  · decide
  · intro q hqmem
    fin_cases hqmem <;> decide

set_option maxRecDepth 400000 in
theorem pr5173866001 : Nat.Prime 5173866001 := by
  apply lucas_cert 5173866001 14 34 [2, 3, 5, 287437] (by norm_num) (by norm_num)
  · intro q hq hdvd
    have he : (5173866001 : Nat) - 1 = 2 ^ 4 * 3 ^ 2 * 5 ^ 3 * 287437 := by norm_num
    rw [he] at hdvd
    rcases (Nat.Prime.dvd_mul hq).mp hdvd with hdvd | hdvd
    · rcases (Nat.Prime.dvd_mul hq).mp hdvd with hdvd | hdvd
      · rcases (Nat.Prime.dvd_mul hq).mp hdvd with hdvd | hdvd
        · have hq2 := Nat.Prime.dvd_of_dvd_pow hq hdvd
          have he2 : q = 2 := (Nat.prime_dvd_prime_iff_eq hq (by norm_num)).mp hq2
          simp [he2]
        · have hq2 := Nat.Prime.dvd_of_dvd_pow hq hdvd
          have he2 : q = 3 := (Nat.prime_dvd_prime_iff_eq hq (by norm_num)).mp hq2
          simp [he2]
      · have hq2 := Nat.Prime.dvd_of_dvd_pow hq hdvd
        have he2 : q = 5 := (Nat.prime_dvd_prime_iff_eq hq (by norm_num)).mp hq2
        simp [he2]
    · have he2 : q = 287437 := (Nat.prime_dvd_prime_iff_eq hq (by norm_num)).mp hdvd
      simp [he2]
  · decide
  · intro q hqmem
    fin_cases hqmem <;> decide

set_option maxRecDepth 400000 in
theorem pr17737757207 : Nat.Prime 17737757207 := by
  apply lucas_cert 17737757207 5 36 [2, 13, 383, 1231, 1447] (by norm_num) (by norm_num)
  · intro q hq hdvd
    have he : (17737757207 : Nat) - 1 = 2 * 13 * 383 * 1231 * 1447 := by norm_num
    rw [he] at hdvd
    rcases (Nat.Prime.dvd_mul hq).mp hdvd with hdvd | hdvd
    · rcases (Nat.Prime.dvd_mul hq).mp hdvd with hdvd | hdvd
      · rcases (Nat.Prime.dvd_mul hq).mp hdvd with hdvd | hdvd
        · rcases (Nat.Prime.dvd_mul hq).mp hdvd with hdvd | hdvd
          · have he2 : q = 2 := (Nat.prime_dvd_prime_iff_eq hq (by norm_num)).mp hdvd
            simp [he2]
          · have he2 : q = 13 := (Nat.prime_dvd_prime_iff_eq hq (by norm_num)).mp hdvd
            simp [he2]
        · have he2 : q = 383 := (Nat.prime_dvd_prime_iff_eq hq (by norm_num)).mp hdvd
          simp [he2]
      · have he2 : q = 1231 := (Nat.prime_dvd_prime_iff_eq hq (by norm_num)).mp hdvd
        simp [he2]
    · have he2 : q = 1447 := (Nat.prime_dvd_prime_iff_eq hq (by norm_num)).mp hdvd
      simp [he2]
  · decide
  · intro q hqmem
    fin_cases hqmem <;> decide

set_option maxRecDepth 400000 in
theorem pr31043196007 : Nat.Prime 31043196007 := by
  apply lucas_cert 31043196007 3 36 [2, 3, 5173866001] (by norm_num) (by norm_num)
  · intro q hq hdvd
    have he : (31043196007 : Nat) - 1 = 2 * 3 * 5173866001 := by norm_num
    rw [he] at hdvd
    rcases (Nat.Prime.dvd_mul hq).mp hdvd with hdvd | hdvd
    · rcases (Nat.Prime.dvd_mul hq).mp hdvd with hdvd | hdvd
      · have he2 : q = 2 := (Nat.prime_dvd_prime_iff_eq hq (by norm_num)).mp hdvd
        simp [he2]
      · have he2 : q = 3 := (Nat.prime_dvd_prime_iff_eq hq (by norm_num)).mp hdvd
        simp [he2]
    · have he2 : q = 5173866001 := (Nat.prime_dvd_prime_iff_eq hq pr5173866001).mp hdvd
      simp [he2]
  · decide
  · intro q hqmem
    fin_cases hqmem <;> decide

set_option maxRecDepth 400000 in
theorem pr2332924018669 : Nat.Prime 2332924018669 := by
  apply lucas_cert 2332924018669 2 43 [2, 3, 122761, 175961] (by norm_num) (by norm_num)
  · intro q hq hdvd
    have he : (2332924018669 : Nat) - 1 = 2 ^ 2 * 3 ^ 3 * 122761 * 175961 := by norm_num
    rw [he] at hdvd
    rcases (Nat.Prime.dvd_mul hq).mp hdvd with hdvd | hdvd
    · rcases (Nat.Prime.dvd_mul hq).mp hdvd with hdvd | hdvd
      · rcases (Nat.Prime.dvd_mul hq).mp hdvd with hdvd | hdvd
        · have hq2 := Nat.Prime.dvd_of_dvd_pow hq hdvd
          have he2 : q = 2 := (Nat.prime_dvd_prime_iff_eq hq (by norm_num)).mp hq2
          simp [he2]
        · have hq2 := Nat.Prime.dvd_of_dvd_pow hq hdvd
          have he2 : q = 3 := (Nat.prime_dvd_prime_iff_eq hq (by norm_num)).mp hq2
          simp [he2]
      · have he2 : q = 122761 := (Nat.prime_dvd_prime_iff_eq hq (by norm_num)).mp hdvd
        simp [he2]
    · have he2 : q = 175961 := (Nat.prime_dvd_prime_iff_eq hq (by norm_num)).mp hdvd
      simp [he2]
  · decide
  · intro q hqmem
    fin_cases hqmem <;> decide

set_option maxRecDepth 400000 in
theorem pr5390320481461 : Nat.Prime 5390320481461 := by
  apply lucas_cert 5390320481461 2 44 [2, 3, 5, 17, 1761542641] (by norm_num) (by norm_num)
  · intro q hq hdvd
    have he : (5390320481461 : Nat) - 1 = 2 ^ 2 * 3 ^ 2 * 5 * 17 * 1761542641 := by norm_num
    rw [he] at hdvd
    rcases (Nat.Prime.dvd_mul hq).mp hdvd with hdvd | hdvd
    · rcases (Nat.Prime.dvd_mul hq).mp hdvd with hdvd | hdvd
      · rcases (Nat.Prime.dvd_mul hq).mp hdvd with hdvd | hdvd
        · rcases (Nat.Prime.dvd_mul hq).mp hdvd with hdvd | hdvd
          · have hq2 := Nat.Prime.dvd_of_dvd_pow hq hdvd
            have he2 : q = 2 := (Nat.prime_dvd_prime_iff_eq hq (by norm_num)).mp hq2
            simp [he2]
          · have hq2 := Nat.Prime.dvd_of_dvd_pow hq hdvd
            have he2 : q = 3 := (Nat.prime_dvd_prime_iff_eq hq (by norm_num)).mp hq2
            simp [he2]
        · have he2 : q = 5 := (Nat.prime_dvd_prime_iff_eq hq (by norm_num)).mp hdvd
          simp [he2]
      · have he2 : q = 17 := (Nat.prime_dvd_prime_iff_eq hq (by norm_num)).mp hdvd
        simp [he2]
    · have he2 : q = 1761542641 := (Nat.prime_dvd_prime_iff_eq hq pr1761542641).mp hdvd
      simp [he2]
  · decide
  · intro q hqmem
    fin_cases hqmem <;> decide

set_option maxRecDepth 400000 in
theorem pr1987320721617130657 : Nat.Prime 1987320721617130657 := by
  apply lucas_cert 1987320721617130657 10 62 [2, 3, 67, 17419, 17737757207] (by norm_num) (by norm_num)
  · intro q hq hdvd
    have he : (1987320721617130657 : Nat) - 1 = 2 ^ 5 * 3 * 67 * 17419 * 17737757207 := by norm_num
    rw [he] at hdvd
    rcases (Nat.Prime.dvd_mul hq).mp hdvd with hdvd | hdvd
    · rcases (Nat.Prime.dvd_mul hq).mp hdvd with hdvd | hdvd
      · rcases (Nat.Prime.dvd_mul hq).mp hdvd with hdvd | hdvd
        · rcases (Nat.Prime.dvd_mul hq).mp hdvd with hdvd | hdvd
          · have hq2 := Nat.Prime.dvd_of_dvd_pow hq hdvd
            have he2 : q = 2 := (Nat.prime_dvd_prime_iff_eq hq (by norm_num)).mp hq2
            simp [he2]
          · have he2 : q = 3 := (Nat.prime_dvd_prime_iff_eq hq (by norm_num)).mp hdvd
            simp [he2]
        · have he2 : q = 67 := (Nat.prime_dvd_prime_iff_eq hq (by norm_num)).mp hdvd
          simp [he2]
      · have he2 : q = 17419 := (Nat.prime_dvd_prime_iff_eq hq (by norm_num)).mp hdvd
        simp [he2]
    · have he2 : q = 17737757207 := (Nat.prime_dvd_prime_iff_eq hq pr17737757207).mp hdvd
      simp [he2]
  · decide
  · intro q hqmem
    fin_cases hqmem <;> decide

set_option maxRecDepth 400000 in
theorem pr3920605862163927555371518889 : Nat.Prime 3920605862163927555371518889 := by
  apply lucas_cert 3920605862163927555371518889 3 93 [2, 67, 101, 31043196007, 2332924018669] (by norm_num) (by norm_num)
  · intro q hq hdvd
    have he : (3920605862163927555371518889 : Nat) - 1 = 2 ^ 3 * 67 * 101 * 31043196007 * 2332924018669 := by norm_num
    rw [he] at hdvd
    rcases (Nat.Prime.dvd_mul hq).mp hdvd with hdvd | hdvd
    · rcases (Nat.Prime.dvd_mul hq).mp hdvd with hdvd | hdvd
      · rcases (Nat.Prime.dvd_mul hq).mp hdvd with hdvd | hdvd
        · rcases (Nat.Prime.dvd_mul hq).mp hdvd with hdvd | hdvd
          · have hq2 := Nat.Prime.dvd_of_dvd_pow hq hdvd
            have he2 : q = 2 := (Nat.prime_dvd_prime_iff_eq hq (by norm_num)).mp hq2
            simp [he2]
          · have he2 : q = 67 := (Nat.prime_dvd_prime_iff_eq hq (by norm_num)).mp hdvd
            simp [he2]
        · have he2 : q = 101 := (Nat.prime_dvd_prime_iff_eq hq (by norm_num)).mp hdvd
          simp [he2]
      · have he2 : q = 31043196007 := (Nat.prime_dvd_prime_iff_eq hq pr31043196007).mp hdvd
        simp [he2]
    · have he2 : q = 2332924018669 := (Nat.prime_dvd_prime_iff_eq hq pr2332924018669).mp hdvd
      simp [he2]
  · decide
  · intro q hqmem
    fin_cases hqmem <;> decide

set_option maxRecDepth 400000 in
theorem pr2281932240107251633077816983767615013 : Nat.Prime 2281932240107251633077816983767615013 := by
  apply lucas_cert 2281932240107251633077816983767615013 2 122 [2, 47, 53, 401, 403681, 711899, 1987320721617130657] (by norm_num) (by norm_num)
  · intro q hq hdvd
    have he : (2281932240107251633077816983767615013 : Nat) - 1 = 2 ^ 2 * 47 * 53 * 401 * 403681 * 711899 * 1987320721617130657 := by norm_num
    rw [he] at hdvd
    rcases (Nat.Prime.dvd_mul hq).mp hdvd with hdvd | hdvd
    · rcases (Nat.Prime.dvd_mul hq).mp hdvd with hdvd | hdvd
      · rcases (Nat.Prime.dvd_mul hq).mp hdvd with hdvd | hdvd
        · rcases (Nat.Prime.dvd_mul hq).mp hdvd with hdvd | hdvd
          · rcases (Nat.Prime.dvd_mul hq).mp hdvd with hdvd | hdvd
            · rcases (Nat.Prime.dvd_mul hq).mp hdvd with hdvd | hdvd
              · have hq2 := Nat.Prime.dvd_of_dvd_pow hq hdvd
                have he2 : q = 2 := (Nat.prime_dvd_prime_iff_eq hq (by norm_num)).mp hq2
                simp [he2]
              · have he2 : q = 47 := (Nat.prime_dvd_prime_iff_eq hq (by norm_num)).mp hdvd
                simp [he2]
            · have he2 : q = 53 := (Nat.prime_dvd_prime_iff_eq hq (by norm_num)).mp hdvd
              simp [he2]
          · have he2 : q = 401 := (Nat.prime_dvd_prime_iff_eq hq (by norm_num)).mp hdvd
            simp [he2]
        · have he2 : q = 403681 := (Nat.prime_dvd_prime_iff_eq hq (by norm_num)).mp hdvd
          simp [he2]
      · have he2 : q = 711899 := (Nat.prime_dvd_prime_iff_eq hq (by norm_num)).mp hdvd
        simp [he2]
    · have he2 : q = 1987320721617130657 := (Nat.prime_dvd_prime_iff_eq hq pr1987320721617130657).mp hdvd
      simp [he2]
  · decide
  · intro q hqmem
    fin_cases hqmem <;> decide

set_option maxRecDepth 400000 in
theorem pr3050270732303867035426569855071344150020050131375292223633894756517537249644418382051685297571 : Nat.Prime 3050270732303867035426569855071344150020050131375292223633894756517537249644418382051685297571 := by
  apply lucas_cert 3050270732303867035426569855071344150020050131375292223633894756517537249644418382051685297571 2 312 [2, 3, 5, 19, 23, 14177, 340314803, 5390320481461, 3920605862163927555371518889, 2281932240107251633077816983767615013] (by norm_num) (by norm_num)
  · intro q hq hdvd
    have he : (3050270732303867035426569855071344150020050131375292223633894756517537249644418382051685297571 : Nat) - 1 = 2 * 3 * 5 * 19 * 23 * 14177 * 340314803 * 5390320481461 * 3920605862163927555371518889 * 2281932240107251633077816983767615013 := by norm_num
    rw [he] at hdvd
    rcases (Nat.Prime.dvd_mul hq).mp hdvd with hdvd | hdvd
    · rcases (Nat.Prime.dvd_mul hq).mp hdvd with hdvd | hdvd
      · rcases (Nat.Prime.dvd_mul hq).mp hdvd with hdvd | hdvd
        · rcases (Nat.Prime.dvd_mul hq).mp hdvd with hdvd | hdvd
          · rcases (Nat.Prime.dvd_mul hq).mp hdvd with hdvd | hdvd
            · rcases (Nat.Prime.dvd_mul hq).mp hdvd with hdvd | hdvd
              · rcases (Nat.Prime.dvd_mul hq).mp hdvd with hdvd | hdvd
                · rcases (Nat.Prime.dvd_mul hq).mp hdvd with hdvd | hdvd
                  · rcases (Nat.Prime.dvd_mul hq).mp hdvd with hdvd | hdvd
                    · have he2 : q = 2 := (Nat.prime_dvd_prime_iff_eq hq (by norm_num)).mp hdvd
                      simp [he2]
                    · have he2 : q = 3 := (Nat.prime_dvd_prime_iff_eq hq (by norm_num)).mp hdvd
                      simp [he2]
                  · have he2 : q = 5 := (Nat.prime_dvd_prime_iff_eq hq (by norm_num)).mp hdvd
                    simp [he2]
                · have he2 : q = 19 := (Nat.prime_dvd_prime_iff_eq hq (by norm_num)).mp hdvd
                  simp [he2]
              · have he2 : q = 23 := (Nat.prime_dvd_prime_iff_eq hq (by norm_num)).mp hdvd
                simp [he2]
            · have he2 : q = 14177 := (Nat.prime_dvd_prime_iff_eq hq (by norm_num)).mp hdvd
              simp [he2]
          · have he2 : q = 340314803 := (Nat.prime_dvd_prime_iff_eq hq pr340314803).mp hdvd
            simp [he2]
        · have he2 : q = 5390320481461 := (Nat.prime_dvd_prime_iff_eq hq pr5390320481461).mp hdvd
          simp [he2]
      · have he2 : q = 3920605862163927555371518889 := (Nat.prime_dvd_prime_iff_eq hq pr3920605862163927555371518889).mp hdvd
        simp [he2]
    · have he2 : q = 2281932240107251633077816983767615013 := (Nat.prime_dvd_prime_iff_eq hq pr2281932240107251633077816983767615013).mp hdvd
      simp [he2]
  · decide
  · intro q hqmem
    fin_cases hqmem <;> decide


/-- The modulus hardcoded by `srf311t1.__init__` is prime. -/
theorem engineP_prime : Nat.Prime engine.p.toNat := by
  have h : engine.p.toNat =
      3050270732303867035426569855071344150020050131375292223633894756517537249644418382051685297571 :=
    rfl
  rw [h]
  exact pr3050270732303867035426569855071344150020050131375292223633894756517537249644418382051685297571

/-! ### C4: `modular_inverse` returns the unique inverse -/

/-- C4: for every integer `v` with `v mod p ≠ 0`, `_modinv` returns the
unique integer `u` in `[0, p)` with `u·v ≡ 1 (mod p)`. -/
theorem claim_C4 (v : Int) (hv : v % engine.p ≠ 0) :
    ∃ u, engine.modinv v = some u ∧ 0 ≤ u ∧ u < engine.p ∧
      u * v ≡ 1 [ZMOD engine.p] ∧
      ∀ w, 0 ≤ w → w < engine.p → w * v ≡ 1 [ZMOD engine.p] → w = u :=
  modinv_inverse_of_prime engineP_prime v hv

theorem claim_C4_witness :
    (2:Int) % engine.p ≠ 0 ∧
      ∃ u, engine.modinv 2 = some u ∧ 0 ≤ u ∧ u < engine.p ∧
        u * 2 ≡ 1 [ZMOD engine.p] ∧
        ∀ w, 0 ≤ w → w < engine.p → w * 2 ≡ 1 [ZMOD engine.p] → w = u :=
  ⟨by decide, claim_C4 2 (by decide)⟩

/-! ### C10: `point_add` is total and never raises -/

/-- C10: on all inputs (identity or arbitrary integer pairs, with no
range restriction), `point_add` completes without raising: `_modinv`
returns 0 rather than failing on operands divisible by `p`, and every
other inverse operand is invertible because `p` is prime. -/
theorem claim_C10 :
    (∀ v : Int, v % engine.p = 0 → engine.modinv v = some 0) ∧
      ∀ P Q : Pt, (engine.point_add P Q).isSome = true :=
  ⟨fun v h => by simp [srf311t1.modinv, h],
    point_add_isSome_of_prime engineP_prime⟩

theorem claim_C10_witness :
    engine.modinv 0 = some 0 ∧
      (engine.point_add (some (-5, 7)) (some (12, -3))).isSome = true :=
  ⟨claim_C10.1 0 (by decide), claim_C10.2 (some (-5, 7)) (some (12, -3))⟩
